import Mathlib

/-!
Verification development for the cook-assistant ingredient pipeline:
the recipe reconciler (`modules/shopping_list.py`), the shopping
categorizer (`_categorize_items`), the detection normalizer
(`modules/ingredient_detector.py` plus the dedup step of the app's
detect handler), the session ingredient-set mutations (`app.py`),
and the checklist export (`app.py`).
-/

namespace CookAssistant

/-- Python `str.lower()` on the ASCII strings this codebase handles:
lowercase every character. -/
def pyLower (s : String) : String := ⟨s.data.map Char.toLower⟩

/-- An ingredient entry of a recipe record: a plain string, or a JSON
object carrying a `name` field (the two shapes the data source emits). -/
inductive IngredientEntry where
  | plainName (s : String)
  | namedEntry (name : String)
deriving DecidableEq, Repr

/-- A value stored under a recipe key: a Python list of entries, or a
present value of any other runtime type (relevant because
`generate_shopping_list` checks `isinstance(missing, list)`). -/
inductive FieldVal where
  | list (entries : List IngredientEntry)
  | nonList
deriving DecidableEq, Repr

/-- The slice of a recipe record that `generate_shopping_list` reads:
whether each of the two ingredient keys is present and what it holds.
`extendedIngredients`, when present, is only ever iterated as a list of
entries. -/
structure Recipe where
  missedIngredients : Option FieldVal
  extendedIngredients : Option (List IngredientEntry)
deriving DecidableEq, Repr

/-- Extraction `ing['name'] if isinstance(ing, dict) else ing` on
the `missedIngredients` path, total over both shapes. -/
def extractMissedName : IngredientEntry → String
  | .namedEntry n => n
  | .plainName s => s

/-- Extraction `ing['name']` on the `extendedIngredients` path: on a plain string
Python raises `TypeError` (string indexed with a string key). -/
def extractExtendedName : IngredientEntry → Except String String
  | .namedEntry n => .ok n
  | .plainName _ => .error "TypeError: string indices must be integers"

/-- The list comprehension `[ing['name'] for ing in recipe['extendedIngredients']]`:
evaluated left to right, raising at the first entry without a `name`. -/
def extractAllExtended : List IngredientEntry → Except String (List String)
  | [] => .ok []
  | e :: es =>
    match extractExtendedName e with
    | .error msg => .error msg
    | .ok n =>
      match extractAllExtended es with
      | .error msg => .error msg
      | .ok ns => .ok (n :: ns)

/-- Function `ShoppingList.generate_shopping_list(recipe, available_ingredients)`
from `modules/shopping_list.py` lines 5-19.  A raised Python exception is
modelled as `.error`; a normal return as `.ok`. -/
def generate_shopping_list (recipe : Recipe) (available_ingredients : List String) :
    Except String (List String) :=
  match recipe.missedIngredients with
  | some (.list missing) => .ok (missing.map extractMissedName)
  | _ =>
    match recipe.extendedIngredients with
    | some ext =>
      match extractAllExtended ext with
      | .error msg => .error msg
      | .ok needed =>
        .ok (needed.filter
          (fun item => !((available_ingredients.map pyLower).contains (pyLower item))))
    | none => .ok []

/-- Python `pat in hay` on strings: substring containment. -/
def pyInStr (pat hay : String) : Bool := decide (pat.toList <:+: hay.toList)

/-- Keyword list `veg_keywords` from `_categorize_items`. -/
def veg_keywords : List String := ["tomato", "lettuce", "onion", "garlic", "potato", "carrot"]

/-- Keyword list `fruit_keywords` from `_categorize_items`. -/
def fruit_keywords : List String := ["apple", "banana", "orange", "berry"]

/-- Keyword list `dairy_keywords` from `_categorize_items`. -/
def dairy_keywords : List String := ["milk", "cheese", "butter", "yogurt"]

/-- Keyword list `meat_keywords` from `_categorize_items`. -/
def meat_keywords : List String := ["chicken", "beef", "fish", "pork"]

/-- Keyword list `pantry_keywords` from `_categorize_items`. -/
def pantry_keywords : List String := ["flour", "sugar", "oil", "rice", "pasta"]

/-- Test `any(keyword in item_lower for keyword in kws)`. -/
def matchesAny (item_lower : String) (kws : List String) : Bool :=
  kws.any (fun kw => pyInStr kw item_lower)

/-- The `if/elif` chain in the loop body of `_categorize_items`
(`modules/shopping_list.py` lines 55-68): the category an item is
appended to. -/
def categoryOfItem (item : String) : String :=
  let item_lower := pyLower item
  if matchesAny item_lower veg_keywords then "Vegetables"
  else if matchesAny item_lower fruit_keywords then "Fruits"
  else if matchesAny item_lower dairy_keywords then "Dairy"
  else if matchesAny item_lower meat_keywords then "Meat"
  else if matchesAny item_lower pantry_keywords then "Pantry"
  else "Other"

/-- The category names in declaration order (the insertion order of the
`categories` dict literal, lines 39-46). -/
def categoryNames : List String :=
  ["Vegetables", "Fruits", "Dairy", "Meat", "Pantry", "Other"]

/-- The initial `categories` dict: each category mapped to an empty
list, in declaration order (a Python dict preserves insertion order). -/
def emptyCategories : List (String × List String) :=
  categoryNames.map (fun c => (c, []))

/-- Statement `categories[c].append(item)`: append `item` to the bucket keyed `c`. -/
def appendToCategory (cats : List (String × List String)) (c : String) (item : String) :
    List (String × List String) :=
  cats.map (fun p => if p.1 = c then (p.1, p.2 ++ [item]) else p)

/-- Function `ShoppingList._categorize_items(items)` (`modules/shopping_list.py`
lines 37-71): loop over the items appending each to its category's
bucket, then drop the empty buckets (`{k: v for k, v in ... if v}`,
which also preserves dict order). -/
def _categorize_items (items : List String) : List (String × List String) :=
  (items.foldl (fun cats item => appendToCategory cats (categoryOfItem item) item)
      emptyCategories).filter
    (fun p => !p.2.isEmpty)

/-- The keyworded categories in the order the `if/elif` chain tests
them (the `Other` fallback carries no keywords). -/
def categoryKeywordTable : List (String × List String) :=
  [("Vegetables", veg_keywords), ("Fruits", fruit_keywords), ("Dairy", dairy_keywords),
   ("Meat", meat_keywords), ("Pantry", pantry_keywords)]

/-- Dict `food_mapping` built by `IngredientDetector._get_food_classes()`
(`modules/ingredient_detector.py` lines 25-40, identical in `app.py`
lines 46-61): COCO label → ingredient name. -/
def food_mapping : List (String × String) :=
  [("apple", "apple"), ("banana", "banana"), ("orange", "orange"),
   ("broccoli", "broccoli"), ("carrot", "carrot"), ("hot dog", "sausage"),
   ("pizza", "pizza"), ("donut", "donut"), ("cake", "cake"),
   ("sandwich", "sandwich"), ("bowl", "bowl"), ("bottle", "bottle"),
   ("wine glass", "wine"), ("cup", "cup")]

/-- The label-processing core of `IngredientDetector.detect_from_image`
(`modules/ingredient_detector.py` lines 52-62): for each detected box's
class name, keep it only `if class_name in self.ingredient_classes` and
record the mapped `ingredient`.  Confidence and bounding box are carried
along in the dict but play no role in the ingredient sequence. -/
def detect_from_image_ingredients (labels : List String) : List String :=
  labels.filterMap (fun class_name => food_mapping.lookup class_name)

/-- The detection normalizer: `detect_from_image` followed by the app's
`list(set([d['ingredient'] for d in detections]))` (`app.py` line 332).
Python's set iteration order is unspecified, so a canonical
duplicate-removal (`List.dedup`) stands for it. -/
def normalize (labels : List String) : List String :=
  (detect_from_image_ingredients labels).dedup

/-- Python `str.isspace`-class characters stripped by `str.strip()`
(ASCII range, which is all this codebase produces). -/
def pyIsSpace (c : Char) : Bool :=
  c = ' ' || c = '\t' || c = '\n' || c = '\r' || c = '\x0b' || c = '\x0c'

/-- Python `s.strip()`: drop leading and trailing whitespace. -/
def pyStrip (s : String) : String :=
  ⟨((s.data.dropWhile pyIsSpace).reverse.dropWhile pyIsSpace).reverse⟩

/-- Split a character sequence at every occurrence of a separator
(Python `str.split(sep)` for a one-character separator). -/
def splitOnChar (sep : Char) : List Char → List (List Char)
  | [] => [[]]
  | c :: cs =>
    if c = sep then [] :: splitOnChar sep cs
    else
      match splitOnChar sep cs with
      | [] => [[c]]
      | l :: ls => (c :: l) :: ls

/-- Python `s.split(',')`. -/
def pySplitComma (s : String) : List String :=
  (splitOnChar ',' s.data).map (fun cs => ⟨cs⟩)

/-- The manual-add handler (`app.py` lines 269-278): split the text
input on commas, strip each piece, then extend the session list and
remove exact duplicates via `list(set(...))` (canonical dedup standing
for the unspecified set order) — or install the raw pieces when no
session list exists yet. -/
def manualAdd (manual_ingredients : String) (st : Option (List String)) : List String :=
  let manual_list := (pySplitComma manual_ingredients).map pyStrip
  match st with
  | some ingredients => (ingredients ++ manual_list).dedup
  | none => manual_list

/-- The detect-ingredients handler (`app.py` lines 328-338): dedup the
detected ingredient names, then extend the session list and dedup again
— or install the detected names when no session list exists yet. -/
def detectAdd (labels : List String) (st : Option (List String)) : List String :=
  let detected_items := normalize labels
  match st with
  | some ingredients => (ingredients ++ detected_items).dedup
  | none => detected_items

/-- The single-item remove handler (`app.py` line 372):
`st.session_state.ingredients.pop(idx)`. -/
def removeIngredient (st : List String) (idx : Nat) : List String :=
  st.eraseIdx idx

/-- The clear-all handlers (`app.py` lines 293 and 377):
`st.session_state.ingredients = []`. -/
def clearIngredients : List String := []

/-- A string is trimmed when it carries no leading or trailing
Python-whitespace character. -/
def isTrimmed (s : String) : Bool :=
  (match s.data.head? with | some c => !pyIsSpace c | none => true) &&
  (match s.data.getLast? with | some c => !pyIsSpace c | none => true)

/-- The checklist item marker `"- [ ] "` of the markdown export. -/
def checkboxMarker : List Char := "- [ ] ".data

/-- Python `"\n".join(lines)`. -/
def joinLines : List (List Char) → List Char
  | [] => []
  | [l] => l
  | l :: ls => l ++ '\n' :: joinLines ls

/-- The markdown checklist export (`app.py` line 476):
`"# Shopping List\n\n" + "\n".join(["- [ ] " + item for item in missing_items])`. -/
def mdExport (missing_items : List (List Char)) : List Char :=
  "# Shopping List\n\n".data ++
    joinLines (missing_items.map (fun item => checkboxMarker ++ item))

/-- Modelled from the spec: no parser for the checklist export exists in
the repository; the spec's round-trip property presumes one that takes
"item lines" back out of the markup — the lines carrying the
unchecked-item marker, with the marker removed. -/
def parseChecklist (doc : List Char) : List (List Char) :=
  ((splitOnChar '\n' doc).filter (fun l => checkboxMarker.isPrefixOf l)).map
    (fun l => l.drop checkboxMarker.length)

/-! ### Helper lemmas about the recipe reconciler -/

theorem extractAllExtended_map_namedEntry (names : List String) :
    extractAllExtended (names.map .namedEntry) = .ok names := by
  induction names with
  | nil => rfl
  | cons n ns ih => simp [extractAllExtended, extractExtendedName, ih]

theorem extractAllExtended_ok_iff (es : List IngredientEntry) :
    (∃ l, extractAllExtended es = .ok l) ↔ ∀ e ∈ es, ∃ n, e = .namedEntry n := by
  induction es with
  | nil => simp [extractAllExtended]
  | cons e es ih =>
    cases e with
    | plainName s => simp [extractAllExtended, extractExtendedName]
    | namedEntry n =>
      rw [show extractAllExtended (.namedEntry n :: es) =
        (match extractAllExtended es with
         | .error msg => .error msg
         | .ok ns => .ok (n :: ns)) from rfl]
      cases h : extractAllExtended es with
      | error msg =>
        simp [h] at ih ⊢
        obtain ⟨x, hx, hnx⟩ := ih
        exact ⟨x, hx, hnx⟩
      | ok ns => simp at ih ⊢; exact fun e he => ih.mp ⟨ns, h⟩ e he

theorem contains_lower_eq (available : List String) (item : String) :
    ((available.map pyLower).contains (pyLower item)) =
      decide (pyLower item ∈ available.map pyLower) := by
  simp [List.contains_eq_any_beq]

/-! ### Helper lemmas about the categorizer -/

theorem categorize_foldl (items : List String) (base : List String) (f : String → List String) :
    items.foldl (fun cats item => appendToCategory cats (categoryOfItem item) item)
      (base.map (fun c => (c, f c))) =
    base.map (fun c => (c, f c ++ items.filter (fun it => categoryOfItem it == c))) := by
  induction items generalizing f with
  | nil => simp
  | cons i is ih =>
    rw [List.foldl_cons]
    have step : appendToCategory (base.map (fun c => (c, f c))) (categoryOfItem i) i =
        base.map (fun c => (c, if c = categoryOfItem i then f c ++ [i] else f c)) := by
      simp only [appendToCategory, List.map_map]
      congr 1
      funext c
      by_cases hc : c = categoryOfItem i <;> simp [hc]
    rw [step, ih]
    congr 1
    funext c
    rw [List.filter_cons]
    by_cases hc : c = categoryOfItem i
    · have hb : (categoryOfItem i == c) = true := by simp [hc]
      simp [hc, hb, List.append_assoc]
    · have hb : (categoryOfItem i == c) = false := by
        simp only [beq_eq_false_iff_ne]
        exact fun h => hc h.symm
      simp [hc, hb]

theorem categorize_eq (items : List String) :
    _categorize_items items =
      (categoryNames.map
        (fun c => (c, items.filter (fun it => categoryOfItem it == c)))).filter
        (fun p => !p.2.isEmpty) := by
  have h := categorize_foldl items categoryNames (fun _ => [])
  simp only [List.nil_append] at h
  simp only [_categorize_items, emptyCategories]
  rw [h]

theorem mem_categorize (items : List String) (c : String) (l : List String)
    (h : (c, l) ∈ _categorize_items items) :
    l = items.filter (fun it => categoryOfItem it == c) := by
  rw [categorize_eq] at h
  have h' := List.mem_of_mem_filter h
  obtain ⟨c', hc', heq⟩ := List.mem_map.mp h'
  injection heq with h1 h2
  subst h1
  exact h2.symm

/-! ### Claim theorems -/

/-- C1: for every recipe record and available set,
`generate_shopping_list` resolves in order: a `missedIngredients` list
wins and its entries' names are returned; otherwise an
`extendedIngredients` list of name-carrying entries yields exactly the
names not case-insensitively among the available ingredients; otherwise
the empty sequence is returned as a normal (non-error) result. -/
theorem C1_resolution_order (recipe : Recipe) (available : List String) :
    (∀ (missing : List IngredientEntry), recipe.missedIngredients = some (.list missing) →
      generate_shopping_list recipe available = .ok (missing.map extractMissedName)) ∧
    (∀ (names : List String),
      (recipe.missedIngredients = none ∨ recipe.missedIngredients = some .nonList) →
      recipe.extendedIngredients = some (names.map .namedEntry) →
      generate_shopping_list recipe available =
        .ok (names.filter (fun item => !decide (pyLower item ∈ available.map pyLower)))) ∧
    ((recipe.missedIngredients = none ∨ recipe.missedIngredients = some .nonList) →
      recipe.extendedIngredients = none →
      generate_shopping_list recipe available = .ok []) := by
  obtain ⟨mi, ei⟩ := recipe
  refine ⟨?_, ?_, ?_⟩
  · rintro missing rfl
    rfl
  · rintro names (rfl | rfl) rfl <;>
      simp [generate_shopping_list, extractAllExtended_map_namedEntry, contains_lower_eq]
  · rintro (rfl | rfl) rfl <;> rfl

/-- C1 witness: the three resolution branches at concrete inputs. -/
theorem C1_resolution_order_witness :
    generate_shopping_list ⟨some (.list [.plainName "basil", .namedEntry "pasta"]), none⟩ []
      = .ok ["basil", "pasta"] ∧
    generate_shopping_list ⟨none, some [.namedEntry "Tomato", .namedEntry "Onion"]⟩ ["tomato"]
      = .ok ["Onion"] ∧
    generate_shopping_list ⟨none, none⟩ ["x"] = .ok [] := by
  refine ⟨?_, ?_, ?_⟩
  · exact ((C1_resolution_order
      ⟨some (.list [.plainName "basil", .namedEntry "pasta"]), none⟩ []).1
        [.plainName "basil", .namedEntry "pasta"] rfl).trans (congrArg Except.ok (by decide))
  · exact ((C1_resolution_order
      ⟨none, some [.namedEntry "Tomato", .namedEntry "Onion"]⟩ ["tomato"]).2.1
        ["Tomato", "Onion"] (Or.inl rfl) rfl).trans (congrArg Except.ok (by decide))
  · exact (C1_resolution_order ⟨none, none⟩ ["x"]).2.2 (Or.inl rfl) rfl

/-- C2 counterexample: a recipe whose only ingredient field is
`extendedIngredients = ["basil"]` — a plain-string entry, one of the two
shapes the claim covers — makes `generate_shopping_list` raise a
`TypeError` instead of returning normally. -/
theorem C2_counterexample :
    generate_shopping_list ⟨none, some [.plainName "basil"]⟩ []
      = .error "TypeError: string indices must be integers" := rfl

/-- C2 amended: on the `missedIngredients` path both entry shapes are
accepted without raising and each contributes its plain name; on the
`extendedIngredients` path the call returns normally exactly when every
entry is an object carrying a `name` field — a plain-string entry there
raises. -/
theorem C2_shape_tolerance_amended (recipe : Recipe) (available : List String) :
    (∀ (missing : List IngredientEntry), recipe.missedIngredients = some (.list missing) →
      ∃ l, generate_shopping_list recipe available = .ok l ∧
        l = missing.map extractMissedName) ∧
    (∀ (ext : List IngredientEntry), recipe.missedIngredients = none →
      recipe.extendedIngredients = some ext →
      ((∃ l, generate_shopping_list recipe available = .ok l) ↔
        ∀ e ∈ ext, ∃ n, e = .namedEntry n)) := by
  obtain ⟨mi, ei⟩ := recipe
  refine ⟨?_, ?_⟩
  · rintro missing rfl
    exact ⟨_, rfl, rfl⟩
  · rintro ext rfl rfl
    rw [← extractAllExtended_ok_iff]
    cases h : extractAllExtended ext with
    | error msg => simp [generate_shopping_list, h]
    | ok needed => simp [generate_shopping_list, h]

/-- C2 witness: the spec's mixed-shape `missedIngredients` example
returns normally with the plain names. -/
theorem C2_shape_tolerance_amended_witness :
    ∃ l, generate_shopping_list
        ⟨some (.list [.plainName "basil", .namedEntry "pasta"]), none⟩ [] = .ok l ∧
      l = ["basil", "pasta"] := by
  obtain ⟨l, hl, hl2⟩ := (C2_shape_tolerance_amended
    ⟨some (.list [.plainName "basil", .namedEntry "pasta"]), none⟩ []).1
    [.plainName "basil", .namedEntry "pasta"] rfl
  exact ⟨l, hl, hl2.trans (by decide)⟩

/-- C3: on the `extendedIngredients` path the output is the source
list's names filtered in order by a case-insensitive membership test,
with original casing kept; in particular `[{'name':'Tomato'},
{'name':'Onion'}]` against available `{'tomato'}` yields exactly
`['Onion']`. -/
theorem C3_extended_preserves_case_and_order (names available : List String) :
    generate_shopping_list ⟨none, some (names.map .namedEntry)⟩ available =
      .ok (names.filter (fun item => !decide (pyLower item ∈ available.map pyLower))) ∧
    generate_shopping_list ⟨none, some [.namedEntry "Tomato", .namedEntry "Onion"]⟩ ["tomato"] =
      .ok ["Onion"] := by
  constructor
  · simp [generate_shopping_list, extractAllExtended_map_namedEntry, contains_lower_eq]
  · have h : extractAllExtended [.namedEntry "Tomato", .namedEntry "Onion"]
        = .ok ["Tomato", "Onion"] := rfl
    simp only [generate_shopping_list, h]
    exact congrArg Except.ok (by decide)

/-- C7 counterexample: with `missedIngredients = ["salt", "salt"]` and
available `{"salt"}` the generated shopping list is `["salt", "salt"]`
— it holds a duplicate and an item case-insensitively present in the
available set. -/
theorem C7_counterexample :
    generate_shopping_list ⟨some (.list [.plainName "salt", .plainName "salt"]), none⟩ ["salt"]
      = .ok ["salt", "salt"] ∧
    ¬ (["salt", "salt"] : List String).Nodup ∧
    pyLower "salt" ∈ (["salt"] : List String).map pyLower :=
  ⟨rfl, by decide, by decide⟩

/-- C7 amended: only on the `extendedIngredients` path is the shopping
list guaranteed to contain no item case-insensitively present in the
available set; the output is not deduplicated in general, and the
`missedIngredients` path may return duplicates and already-available
items. -/
theorem C7_amended_extended_excludes_available (names available l : List String)
    (h : generate_shopping_list ⟨none, some (names.map .namedEntry)⟩ available = .ok l) :
    ∀ item ∈ l, pyLower item ∉ available.map pyLower := by
  have hg : generate_shopping_list ⟨none, some (names.map .namedEntry)⟩ available =
      .ok (names.filter (fun item => !decide (pyLower item ∈ available.map pyLower))) := by
    simp [generate_shopping_list, extractAllExtended_map_namedEntry, contains_lower_eq]
  rw [hg] at h
  injection h with h
  subst h
  intro item hitem
  simpa using List.of_mem_filter hitem

/-- C7 witness: `'Onion'`, the one item the extended path returns for
the spec example, is indeed not among the lowered available set. -/
theorem C7_amended_witness : pyLower "Onion" ∉ (["tomato"] : List String).map pyLower :=
  C7_amended_extended_excludes_available ["Tomato", "Onion"] ["tomato"] ["Onion"]
    rfl "Onion" (by decide)

/-- C10: whenever the recipe carries a `missedIngredients` list the
available set is never consulted — the result is identical for any two
available sets — and the returned list may include ingredients the user
already has. -/
theorem C10_missed_path_independent_of_available :
    (∀ (missing : List IngredientEntry) (ext : Option (List IngredientEntry))
        (a1 a2 : List String),
      generate_shopping_list ⟨some (.list missing), ext⟩ a1 =
        generate_shopping_list ⟨some (.list missing), ext⟩ a2) ∧
    generate_shopping_list ⟨some (.list [.plainName "salt"]), none⟩ ["salt"] = .ok ["salt"] :=
  ⟨fun _ _ _ _ => rfl, rfl⟩

/-- C4: `categoryOfItem` lowercases the item and takes the first
category of the fixed order (Vegetables, Fruits, Dairy, Meat, Pantry)
whose keyword list has a substring match, falling back to `Other` when
no keyword matches; consequently no item appears in two categories of a
categorization, and `'chicken broth'` lands in `Meat`. -/
theorem C4_first_match_wins (item : String) (items : List String) :
    categoryOfItem item =
      ((categoryKeywordTable.find?
        (fun p => matchesAny (pyLower item) p.2)).map Prod.fst).getD "Other" ∧
    ((∀ p ∈ categoryKeywordTable, matchesAny (pyLower item) p.2 = false) →
      categoryOfItem item = "Other") ∧
    (∀ (c1 c2 : String) (l1 l2 : List String),
      (c1, l1) ∈ _categorize_items items → (c2, l2) ∈ _categorize_items items →
      item ∈ l1 → item ∈ l2 → c1 = c2) ∧
    categoryOfItem "chicken broth" = "Meat" := by
  refine ⟨?_, ?_, ?_, by decide⟩
  · by_cases hv : matchesAny (pyLower item) veg_keywords
    · simp [categoryOfItem, categoryKeywordTable, List.find?, hv]
    all_goals by_cases hf : matchesAny (pyLower item) fruit_keywords
    · simp [categoryOfItem, categoryKeywordTable, List.find?, hv, hf]
    all_goals by_cases hd : matchesAny (pyLower item) dairy_keywords
    · simp [categoryOfItem, categoryKeywordTable, List.find?, hv, hf, hd]
    all_goals by_cases hm : matchesAny (pyLower item) meat_keywords
    · simp [categoryOfItem, categoryKeywordTable, List.find?, hv, hf, hd, hm]
    all_goals by_cases hp : matchesAny (pyLower item) pantry_keywords
    all_goals simp [categoryOfItem, categoryKeywordTable, List.find?, hv, hf, hd, hm, hp]
  · intro h
    have hv := h ("Vegetables", veg_keywords) (by simp [categoryKeywordTable])
    have hf := h ("Fruits", fruit_keywords) (by simp [categoryKeywordTable])
    have hd := h ("Dairy", dairy_keywords) (by simp [categoryKeywordTable])
    have hm := h ("Meat", meat_keywords) (by simp [categoryKeywordTable])
    have hp := h ("Pantry", pantry_keywords) (by simp [categoryKeywordTable])
    simp [categoryOfItem, hv, hf, hd, hm, hp]
  · intro c1 c2 l1 l2 h1 h2 m1 m2
    have e1 := mem_categorize items c1 l1 h1
    have e2 := mem_categorize items c2 l2 h2
    subst e1; subst e2
    have b1 := List.of_mem_filter m1
    have b2 := List.of_mem_filter m2
    exact (beq_iff_eq.mp b1).symm.trans (beq_iff_eq.mp b2)

/-- C4 witness: an item matching no keyword lands in `Other`, and the
two Meat items of a concrete categorization share their category. -/
theorem C4_first_match_wins_witness :
    categoryOfItem "kiwi" = "Other" ∧ ("Meat" : String) = "Meat" := by
  constructor
  · exact (C4_first_match_wins "kiwi" []).2.1 (by decide)
  · exact (C4_first_match_wins "chicken broth" ["chicken broth", "beef stew"]).2.2.1
      "Meat" "Meat" ["chicken broth", "beef stew"] ["chicken broth", "beef stew"]
      (by decide) (by decide) (by decide) (by decide)

/-- C5: `_categorize_items` equals the declaration-order construction —
each category paired with the input-order filter of its items, empty
categories dropped — so every returned bucket is nonempty, the returned
categories are a sublist of the declaration order, and each bucket holds
its items in input order. -/
theorem C5_category_map_structure (items : List String) :
    _categorize_items items =
      (categoryNames.map
        (fun c => (c, items.filter (fun it => categoryOfItem it == c)))).filter
        (fun p => !p.2.isEmpty) ∧
    (∀ p ∈ _categorize_items items, p.2 ≠ []) ∧
    ((_categorize_items items).map Prod.fst).Sublist categoryNames ∧
    (∀ (c : String) (l : List String), (c, l) ∈ _categorize_items items →
      l = items.filter (fun it => categoryOfItem it == c)) := by
  refine ⟨categorize_eq items, ?_, ?_, fun c l h => mem_categorize items c l h⟩
  · intro p hp
    rw [categorize_eq] at hp
    have := List.of_mem_filter hp
    simpa using this
  · rw [categorize_eq]
    have h := List.Sublist.map Prod.fst
      (@List.filter_sublist (String × List String) (fun q => !q.2.isEmpty)
        (categoryNames.map (fun c => (c, items.filter (fun it => categoryOfItem it == c)))))
    rw [List.map_map] at h
    simpa using h

/-- C5 witness: the spec's example categorization, with the Dairy
bucket nonempty and equal to the input-order filter. -/
theorem C5_category_map_structure_witness :
    ((("Dairy", ["skim milk"]) : String × List String).2 ≠ []) ∧
    (["skim milk"] : List String) =
      ["chicken broth", "skim milk", "kiwi"].filter
        (fun it => categoryOfItem it == "Dairy") := by
  constructor
  · exact (C5_category_map_structure ["chicken broth", "skim milk", "kiwi"]).2.1
      ("Dairy", ["skim milk"]) (by decide)
  · exact (C5_category_map_structure ["chicken broth", "skim milk", "kiwi"]).2.2.2
      "Dairy" ["skim milk"] (by decide)

theorem lookup_mem_values (al : List (String × String)) (k v : String)
    (h : al.lookup k = some v) : v ∈ al.map Prod.snd := by
  induction al with
  | nil => simp [List.lookup] at h
  | cons p ps ih =>
    obtain ⟨k', v'⟩ := p
    rw [List.lookup_cons] at h
    cases hk : (k == k') with
    | true =>
      simp [hk] at h
      subst h
      simp
    | false =>
      simp [hk] at h
      simp only [List.map_cons]
      exact List.mem_cons_of_mem _ (ih h)

/-- C6: for every detection sequence, the normalized ingredient list
has no duplicates and every entry is the image of some input label under
the fixed mapping table — never a raw label absent from the table, which
is silently discarded; `'hot dog'` maps to `'sausage'` and
`'wine glass'` to `'wine'`. -/
theorem C6_normalize_no_raw_labels (labels : List String) :
    (normalize labels).Nodup ∧
    (∀ x ∈ normalize labels, x ∈ food_mapping.map Prod.snd) ∧
    (∀ x ∈ normalize labels, ∃ l ∈ labels, food_mapping.lookup l = some x) ∧
    food_mapping.lookup "hot dog" = some "sausage" ∧
    food_mapping.lookup "wine glass" = some "wine" := by
  refine ⟨List.nodup_dedup _, ?_, ?_, rfl, rfl⟩
  · intro x hx
    obtain ⟨l, _, hlook⟩ :=
      List.mem_filterMap.mp (List.mem_dedup.mp hx)
    exact lookup_mem_values _ _ _ hlook
  · intro x hx
    exact List.mem_filterMap.mp (List.mem_dedup.mp hx)

/-- C6 witness: `'sausage'`, the normalization of a `'hot dog'`
detection, is a mapped ingredient name. -/
theorem C6_normalize_no_raw_labels_witness :
    ("sausage" : String) ∈ food_mapping.map Prod.snd :=
  (C6_normalize_no_raw_labels ["hot dog"]).2.1 "sausage" (by decide)

theorem head?_dropWhile_not (p : Char → Bool) (l : List Char) (c : Char)
    (h : (l.dropWhile p).head? = some c) : p c = false := by
  induction l with
  | nil => simp [List.dropWhile] at h
  | cons a t ih =>
    rw [List.dropWhile_cons] at h
    by_cases ha : p a
    · simp [ha] at h
      exact ih h
    · simp [ha] at h
      subst h
      simpa using ha

theorem getLast?_dropWhile (p : Char → Bool) (l : List Char)
    (h : l.dropWhile p ≠ []) : (l.dropWhile p).getLast? = l.getLast? := by
  induction l with
  | nil => simp at h
  | cons a t ih =>
    rw [List.dropWhile_cons] at h ⊢
    by_cases ha : p a
    · simp only [ha, if_true] at h ⊢
      have ht : t ≠ [] := by
        intro e
        subst e
        simp [List.dropWhile] at h
      rw [ih h]
      cases t with
      | nil => exact absurd rfl ht
      | cons b u => rw [List.getLast?_cons_cons]
    · simp [ha]

theorem isTrimmed_pyStrip (s : String) : isTrimmed (pyStrip s) = true := by
  have hdata : (pyStrip s).data
      = ((s.data.dropWhile pyIsSpace).reverse.dropWhile pyIsSpace).reverse := rfl
  unfold isTrimmed
  rw [hdata, List.head?_reverse, List.getLast?_reverse]
  rw [Bool.and_eq_true]
  constructor
  · by_cases hR : (s.data.dropWhile pyIsSpace).reverse.dropWhile pyIsSpace = []
    · rw [hR]
      rfl
    · rw [getLast?_dropWhile _ _ hR, List.getLast?_reverse]
      cases hm : (s.data.dropWhile pyIsSpace).head? with
      | none => rfl
      | some c => simp [head?_dropWhile_not pyIsSpace s.data c hm]
  · cases hh : ((s.data.dropWhile pyIsSpace).reverse.dropWhile pyIsSpace).head? with
    | none => rfl
    | some c =>
      simp [head?_dropWhile_not pyIsSpace (s.data.dropWhile pyIsSpace).reverse c hh]

theorem food_values_trimmed : ∀ v ∈ food_mapping.map Prod.snd, isTrimmed v = true := by
  decide

/-- C8 counterexample: a single manual add of `"Tomato,tomato, ,x,x"`
on a fresh session produces `["Tomato", "tomato", " "→"", "x", "x"]`
stripped — a state with a non-lowercase entry, an empty entry,
case-insensitive duplicates, and even exact duplicates. -/
theorem C8_counterexample :
    manualAdd "Tomato,tomato, ,x,x" none = ["Tomato", "tomato", "", "x", "x"] ∧
    pyLower "Tomato" ≠ "Tomato" ∧
    pyLower "Tomato" = pyLower "tomato" ∧
    ("" : String) ∈ manualAdd "Tomato,tomato, ,x,x" none ∧
    ¬ (manualAdd "Tomato,tomato, ,x,x" none).Nodup := by
  refine ⟨by decide, by decide, by decide, by decide, by decide⟩

/-- C8 amended: the session-set mutations — manual add, detection add,
single-item remove, clear-all — preserve only the trimmed part of the
invariant: every entry stays free of leading/trailing whitespace.
Lowercasing, non-emptiness and case-insensitive deduplication are not
maintained (a first manual add can even introduce exact duplicates). -/
theorem C8_amended_trimmed_invariant (input : String) (labels : List String)
    (st : List String) (idx : Nat) (h : ∀ x ∈ st, isTrimmed x = true) :
    (∀ x ∈ manualAdd input (some st), isTrimmed x = true) ∧
    (∀ x ∈ manualAdd input none, isTrimmed x = true) ∧
    (∀ x ∈ detectAdd labels (some st), isTrimmed x = true) ∧
    (∀ x ∈ detectAdd labels none, isTrimmed x = true) ∧
    (∀ x ∈ removeIngredient st idx, isTrimmed x = true) ∧
    (∀ x ∈ clearIngredients, isTrimmed x = true) := by
  have hman : ∀ x ∈ (pySplitComma input).map pyStrip, isTrimmed x = true := by
    intro x hx
    obtain ⟨y, _, rfl⟩ := List.mem_map.mp hx
    exact isTrimmed_pyStrip y
  have hdet : ∀ x ∈ normalize labels, isTrimmed x = true := by
    intro x hx
    obtain ⟨l, _, hlook⟩ := List.mem_filterMap.mp (List.mem_dedup.mp hx)
    exact food_values_trimmed x (lookup_mem_values _ _ _ hlook)
  refine ⟨?_, hman, ?_, hdet, ?_, ?_⟩
  · intro x hx
    rcases List.mem_append.mp (List.mem_dedup.mp hx) with h1 | h2
    · exact h x h1
    · exact hman x h2
  · intro x hx
    rcases List.mem_append.mp (List.mem_dedup.mp hx) with h1 | h2
    · exact h x h1
    · exact hdet x h2
  · exact fun x hx => h x (List.mem_of_mem_eraseIdx hx)
  · intro x hx
    simp [clearIngredients] at hx

/-- C8 witness: after adding `"a"` to the trimmed state `["ok"]`, the
entry `"a"` is trimmed. -/
theorem C8_amended_trimmed_invariant_witness : isTrimmed "a" = true :=
  (C8_amended_trimmed_invariant "a" [] ["ok"] 0 (by decide)).1 "a" (by decide)

theorem splitOnChar_no_sep (sep : Char) (l : List Char) (h : sep ∉ l) :
    splitOnChar sep l = [l] := by
  induction l with
  | nil => rfl
  | cons c cs ih =>
    have hc : ¬ c = sep := by
      intro e
      subst e
      exact h (List.mem_cons_self _ _)
    have h' : sep ∉ cs := fun hm => h (List.mem_cons_of_mem _ hm)
    simp only [splitOnChar, if_neg hc, ih h']

theorem splitOnChar_append (sep : Char) (l rest : List Char) (h : sep ∉ l) :
    splitOnChar sep (l ++ sep :: rest) = l :: splitOnChar sep rest := by
  induction l with
  | nil => simp [splitOnChar]
  | cons c cs ih =>
    have hc : ¬ c = sep := by
      intro e
      subst e
      exact h (List.mem_cons_self _ _)
    have h' : sep ∉ cs := fun hm => h (List.mem_cons_of_mem _ hm)
    simp only [List.cons_append, splitOnChar, if_neg hc, List.append_eq, ih h']

theorem splitOnChar_joinLines (lines : List (List Char))
    (hne : lines ≠ []) (h : ∀ l ∈ lines, '\n' ∉ l) :
    splitOnChar '\n' (joinLines lines) = lines := by
  induction lines with
  | nil => exact absurd rfl hne
  | cons l ls ih =>
    cases ls with
    | nil => exact splitOnChar_no_sep '\n' l (h l (List.mem_cons_self _ _))
    | cons l2 ls2 =>
      rw [show joinLines (l :: l2 :: ls2) = l ++ '\n' :: joinLines (l2 :: ls2) from rfl]
      rw [splitOnChar_append '\n' l _ (h l (List.mem_cons_self _ _))]
      rw [ih (by simp) (fun x hx => h x (List.mem_cons_of_mem _ hx))]

/-- C9: exporting a shopping list (items free of newlines) to the
checklist markup — a title line, a blank line, then one `- [ ]` line
per item — and parsing the item lines back recovers exactly the
original ordered item list. -/
theorem C9_checklist_roundtrip (items : List (List Char))
    (h : ∀ item ∈ items, '\n' ∉ item) :
    parseChecklist (mdExport items) = items := by
  have hdoc : mdExport items =
      "# Shopping List".data ++ '\n' :: '\n' ::
        joinLines (items.map (fun item => checkboxMarker ++ item)) := rfl
  unfold parseChecklist
  rw [hdoc]
  rw [splitOnChar_append '\n' ("# Shopping List".data) _ (by decide)]
  rw [show splitOnChar '\n'
        ('\n' :: joinLines (items.map (fun item => checkboxMarker ++ item)))
      = [] :: splitOnChar '\n' (joinLines (items.map (fun item => checkboxMarker ++ item)))
      from by simp [splitOnChar]]
  cases items with
  | nil => decide
  | cons i is =>
    rw [splitOnChar_joinLines _ (by simp) ?hfree]
    case hfree =>
      intro x hx
      obtain ⟨it, hit, rfl⟩ := List.mem_map.mp hx
      intro hmem
      rcases List.mem_append.mp hmem with h1 | h2
      · exact absurd h1 (by decide)
      · exact h it hit h2
    rw [List.filter_cons, List.filter_cons]
    rw [if_neg (by decide), if_neg (by decide)]
    have hfilter : (((i :: is).map (fun item => checkboxMarker ++ item)).filter
        (fun l => checkboxMarker.isPrefixOf l)) =
        (i :: is).map (fun item => checkboxMarker ++ item) := by
      rw [List.filter_eq_self]
      intro a ha
      obtain ⟨it, _, rfl⟩ := List.mem_map.mp ha
      exact List.isPrefixOf_iff_prefix.mpr (List.prefix_append _ _)
    rw [hfilter, List.map_map]
    have hmap : ∀ (ls : List (List Char)),
        ls.map ((fun l => List.drop checkboxMarker.length l) ∘
          fun item => checkboxMarker ++ item) = ls := by
      intro ls
      induction ls with
      | nil => rfl
      | cons a t iht => simp [Function.comp, List.drop_left, iht]
    exact hmap (i :: is)

/-- C9 witness: the round trip at a concrete two-item list. -/
theorem C9_checklist_roundtrip_witness :
    parseChecklist (mdExport ["milk".data, "eggs".data]) = ["milk".data, "eggs".data] :=
  C9_checklist_roundtrip ["milk".data, "eggs".data] (by decide)

end CookAssistant
